import Mathlib

/-!
Verification of the peer-review demo application (src/App.jsx).

The application keeps four collections (users, assignments, submissions,
reviews) in browser-local storage and manipulates them with three
operations: createAssignment, createSubmission (which runs the reviewer
assignment engine) and submitReview (review reconciliation).  This file
is a shallow embedding of those operations: JavaScript objects become
structures, the random index stream of the rejection-sampling loop
becomes an explicit list of indices (`picks`), the id generator `uid`
becomes explicit fresh-id parameters, and `Date.now()` becomes a `Nat`
parameter.  Machine-level concerns (React state, rendering) are outside
the embedded core, as the specification itself places them out of scope.
-/

namespace PeerReview

/-- A user record: `{id, name, role, email}` (App.jsx seed data). -/
structure User where
  id : String
  name : String
  role : String
  email : String
deriving DecidableEq, Repr

/-- A rubric criterion: `{id, title, maxScore}` (RubricEditor). -/
structure Criterion where
  id : String
  title : String
  maxScore : Int
deriving DecidableEq, Repr

/-- An assignment: `{id, title, desc, rubric, createdAt, reviewersPerSubmission}`.
`reviewersPerSubmission` is `Option Int` so that an unset field (JS
`undefined`) is representable, as the `|| 2` default in createSubmission
distinguishes it. -/
structure Assignment where
  id : String
  title : String
  desc : String
  rubric : List Criterion
  createdAt : Nat
  reviewersPerSubmission : Option Int
deriving DecidableEq, Repr

/-- A submission: `{id, assignmentId, authorId, content, version, createdAt}`. -/
structure Submission where
  id : String
  assignmentId : String
  authorId : String
  content : String
  version : Nat
  createdAt : Nat
deriving DecidableEq, Repr

/-- Scores are a JS object mapping criterion id to a number; embedded as an
association list (insertion-ordered, as JS objects are). -/
abbrev Scores := List (String × Int)

/-- A review record.  Placeholders carry `scores = none, comment = none,
status = "pending"` and an `assignedAt`; records inserted directly as done
by submitReview carry no `assignedAt` field, hence `Option Nat`. -/
structure Review where
  id : String
  submissionId : String
  reviewerId : String
  scores : Option Scores
  comment : Option String
  status : String
  assignedAt : Option Nat
  submittedAt : Option Nat
deriving DecidableEq, Repr

/-! ## The localStorage wrapper LS.get (App.jsx lines 4-14)

`get(key, fallback)` runs `JSON.parse(localStorage.getItem(key))` inside
try/catch and returns `v ?? fallback`.  `localStorage.getItem` yields the
stored string or `null` (embedded as `Option String`); `JSON.parse(null)`
parses the coerced string "null" to the JSON null value.  The host JSON
parser is an external collaborator, passed in as a function returning
`none` exactly when `JSON.parse` would throw. -/

/-- JSON values, the result type of the host JSON parser. -/
inductive Json where
  | null : Json
  | bool : Bool → Json
  | num : Int → Json
  | str : String → Json
  | arr : List Json → Json
  | obj : List (String × Json) → Json

namespace LS

/-- Embedding of `LS.get` over a stored cell and a parse function:
absent key parses (via coercion of null to "null") to JSON null and the
`?? fallback` kicks in; a parse failure is caught and yields the fallback;
a parsed null yields the fallback; any other parsed value is returned. -/
def get (stored : Option String) (parse : String → Option Json) (fallback : Json) : Json :=
  match stored with
  | none => fallback
  | some s =>
    match parse s with
    | none => fallback
    | some Json.null => fallback
    | some v => v

end LS

/-! ## Reviewer assignment engine (createSubmission, App.jsx lines 181-194) -/

/-- The eligible pool:
`users.filter(u => u.role === 'student' && u.id !== s.authorId)`. -/
def eligiblePool (users : List User) (s : Submission) : List User :=
  users.filter (fun u => u.role == "student" && u.id != s.authorId)

/-- JS `x || d` for a possibly-undefined number `x`: `undefined` and `0`
are falsy and give the default; every other integer (negative included)
is truthy and is returned unchanged. -/
def jsOr : Option Int → Int → Int
  | none, d => d
  | some v, d => if v = 0 then d else v

/-- The rejection-sampling loop of createSubmission:
`while (chosen.length < Math.min(reviewersNeeded, students.length)) { pick
= students[random]; if (!chosen.includes(pick.id)) chosen.push(pick.id) }`.
The stream of random indices is the explicit list `picks`; an exhausted
stream while the loop still wants entries returns `none` (the surrogate
for the loop spinning forever), as does an out-of-range index (the
surrogate for `undefined.id`). -/
def chooseLoop (students : List User) (target : Int) :
    List Nat → List String → Option (List String)
  | picks, chosen =>
    if (chosen.length : Int) < target then
      match picks with
      | [] => none
      | i :: rest =>
        match students[i]? with
        | none => none
        | some pick =>
          if pick.id ∈ chosen then chooseLoop students target rest chosen
          else chooseLoop students target rest (chosen ++ [pick.id])
    else some chosen

/-- Placeholder construction:
`chosen.map(rid => ({id: uid('ra'), submissionId: s.id, reviewerId: rid,
scores: null, comment: null, assignedAt: Date.now(), status: 'pending'}))`,
with the id generator embedded as the function `freshIds` on positions. -/
def mkPlaceholders (freshIds : Nat → String) (sid : String) (now : Nat) :
    Nat → List String → List Review
  | _, [] => []
  | i, rid :: rest =>
    { id := freshIds i, submissionId := sid, reviewerId := rid, scores := none,
      comment := none, status := "pending", assignedAt := some now,
      submittedAt := none } :: mkPlaceholders freshIds sid now (i + 1) rest

/-- The needed count of createSubmission:
`(assignments.find(a => a.id === s.assignmentId)?.reviewersPerSubmission) || 2`. -/
def reviewersNeeded (assignments : List Assignment) (s : Submission) : Int :=
  jsOr ((assignments.find? (fun a => a.id == s.assignmentId)).bind
    (fun a => a.reviewersPerSubmission)) 2

/-- The reviewer-assignment part of createSubmission: computes the eligible
pool and the needed count, runs the sampling loop with target
`Math.min(reviewersNeeded, students.length)` and builds the pending
placeholders. -/
def assignReviewers (users : List User) (assignments : List Assignment)
    (s : Submission) (now : Nat) (freshIds : Nat → String) (picks : List Nat) :
    Option (List Review) :=
  match chooseLoop (eligiblePool users s)
      (min (reviewersNeeded assignments s) ((eligiblePool users s).length : Int))
      picks [] with
  | none => none
  | some chosen => some (mkPlaceholders freshIds s.id now 0 chosen)

/-! ## Review reconciliation (submitReview, App.jsx lines 197-209) -/

/-- The findIndex predicate:
`r.submissionId === submissionId && r.reviewerId === reviewerId &&
r.status === 'pending'`. -/
def pendingMatch (submissionId reviewerId : String) (r : Review) : Bool :=
  r.submissionId == submissionId && r.reviewerId == reviewerId && r.status == "pending"

/-- The update applied at the found index:
`{...copy[idx], scores, comment, status: 'done', submittedAt: Date.now()}`. -/
def completeReview (now : Nat) (scores : Scores) (comment : String) (r : Review) : Review :=
  { r with scores := some scores, comment := some comment, status := "done",
           submittedAt := some now }

/-- The record pushed when no pending placeholder is found:
`{id: uid('r'), submissionId, reviewerId, scores, comment, status: 'done',
submittedAt: Date.now()}` (note: no assignedAt field). -/
def mkDoneReview (freshId : String) (now : Nat) (submissionId reviewerId : String)
    (scores : Scores) (comment : String) : Review :=
  { id := freshId, submissionId := submissionId, reviewerId := reviewerId,
    scores := some scores, comment := some comment, status := "done",
    assignedAt := none, submittedAt := some now }

/-- submitReview: find the first review matching `pendingMatch` and replace
it in place by its completed form; if none exists, push a fresh done record
at the end.  This structural recursion is the direct semantics of the
source's `findIndex` + `copy[idx] = ...` + `copy.push(...)`. -/
def submitReview (freshId : String) (now : Nat) (submissionId reviewerId : String)
    (scores : Scores) (comment : String) : List Review → List Review
  | [] => [mkDoneReview freshId now submissionId reviewerId scores comment]
  | r :: rs =>
    if pendingMatch submissionId reviewerId r then
      completeReview now scores comment r :: rs
    else
      r :: submitReview freshId now submissionId reviewerId scores comment rs

/-! ## The review form's score map (ReviewForm, App.jsx lines 122-151) -/

/-- JS object update `{...s, [cid]: v}`: replace the value if the key is
present (keeping its position), otherwise append the new key at the end. -/
def setScore (s : Scores) (cid : String) (v : Int) : Scores :=
  if s.any (fun p => p.1 == cid) then
    s.map (fun p => if p.1 == cid then (p.1, v) else p)
  else
    s ++ [(cid, v)]

/-- The form's initial state: `assignment.rubric.forEach(c => s[c.id] = 0)`. -/
def initScores (rubric : List Criterion) : Scores :=
  rubric.foldl (fun s c => setScore s c.id 0) []

/-- The score map the form submits after a sequence of user edits, each
edit being a `setScore(cid, val)` call. -/
def formScores (rubric : List Criterion) (edits : List (String × Int)) : Scores :=
  edits.foldl (fun s e => setScore s e.1 e.2) (initScores rubric)

/-! ## The application's state and operations (App component)

The App component holds the four collections; `users` is read once and
never mutated (there is no setter for it).  The three mutating operations
are createAssignment, createSubmission and submitReview.  The `uid`
generator is specified to produce unique identifiers, embedded as
freshness hypotheses on the ids an operation introduces. -/

structure AppState where
  users : List User
  assignments : List Assignment
  submissions : List Submission
  reviews : List Review
deriving DecidableEq, Repr

/-- The seeded users (seed(), App.jsx lines 17-36). -/
def seedUsers : List User :=
  [ { id := "t1", name := "Teacher Alice", role := "teacher", email := "alice@school.com" },
    { id := "s1", name := "Student Rohini", role := "student", email := "rohini@example.com" },
    { id := "s2", name := "Student Ravi", role := "student", email := "ravi@example.com" },
    { id := "s3", name := "Student Yaswanth", role := "student", email := "yaswanth@example.com" } ]

/-- The state after seeding: the four users and empty collections. -/
def initState : AppState :=
  { users := seedUsers, assignments := [], submissions := [], reviews := [] }

/-- One user-interface event, as the App component's handlers implement it.

`createAssignment` appends an assignment built by the CreateAssignment
form, whose id is fresh (`uid`) and whose `reviewersPerSubmission` is
hard-coded to 2 (App.jsx line 91).

`createSubmission` appends a submission built by the SubmitForm of an
existing assignment (so `s.assignmentId` names one) whose id is fresh,
then appends the placeholders produced by the assignment engine; the
step requires the engine's sampling loop to have terminated
(`assignReviewers ... = some placeholders`).

`submitReview` is fired from the ReviewForm rendered for a pending
review `r` of the store; the form is built from the first submission
matching `r.submissionId` and the first assignment matching its
`assignmentId` (App.jsx line 313), and submits a score map derived from
that assignment's rubric by `formScores`. -/
inductive Step : AppState → AppState → Prop
  | createAssignment (st : AppState) (a : Assignment)
      (hfresh : ∀ a' ∈ st.assignments, a'.id ≠ a.id)
      (hrps : a.reviewersPerSubmission = some 2) :
      Step st { st with assignments := st.assignments ++ [a] }
  | createSubmission (st : AppState) (s : Submission)
      (now : Nat) (freshIds : Nat → String) (picks : List Nat)
      (placeholders : List Review)
      (hexists : ∃ a ∈ st.assignments, a.id = s.assignmentId)
      (hfreshSub : ∀ s' ∈ st.submissions, s'.id ≠ s.id)
      (hfreshRev : ∀ r ∈ st.reviews, r.submissionId ≠ s.id)
      (hrun : assignReviewers st.users st.assignments s now freshIds picks
        = some placeholders) :
      Step st { st with submissions := st.submissions ++ [s],
                        reviews := st.reviews ++ placeholders }
  | submitReview (st : AppState) (r : Review)
      (hr : r ∈ st.reviews) (hpend : r.status = "pending")
      (sub : Submission)
      (hsub : st.submissions.find? (fun x => x.id == r.submissionId) = some sub)
      (a : Assignment)
      (ha : st.assignments.find? (fun x => x.id == sub.assignmentId) = some a)
      (edits : List (String × Int)) (comment : String)
      (freshId : String) (now : Nat) :
      Step st { st with reviews := (submitReview freshId now r.submissionId
        r.reviewerId (formScores a.rubric edits) comment st.reviews) }

/-- States reachable from the seeded initial state through the
application's operations. -/
inductive Reachable : AppState → Prop
  | init : Reachable initState
  | step {st st' : AppState} : Reachable st → Step st st' → Reachable st'

/-! ## Lemmas about submitReview -/

/-- When no element of the list satisfies the findIndex predicate,
submitReview takes the push branch: the new done record is appended and
everything else is untouched. -/
lemma submitReview_insert (f : String) (n : Nat) (sid rid : String) (sc : Scores)
    (c : String) (l : List Review) (h : ∀ x ∈ l, pendingMatch sid rid x = false) :
    submitReview f n sid rid sc c l = l ++ [mkDoneReview f n sid rid sc c] := by
  induction l with
  | nil => rfl
  | cons r rs ih =>
    have hr := h r (List.mem_cons_self r rs)
    simp only [submitReview, hr, Bool.false_eq_true, if_false, List.cons_append,
      List.cons.injEq, true_and]
    exact ih (fun x hx => h x (List.mem_cons_of_mem r hx))

/-- When the list splits as `l1 ++ r :: l2` with no match in `l1` and `r`
matching, submitReview replaces exactly `r` by its completed form. -/
lemma submitReview_update (f : String) (n : Nat) (sid rid : String) (sc : Scores)
    (c : String) (l1 : List Review) (r : Review) (l2 : List Review)
    (h1 : ∀ x ∈ l1, pendingMatch sid rid x = false)
    (hr : pendingMatch sid rid r = true) :
    submitReview f n sid rid sc c (l1 ++ r :: l2)
      = l1 ++ completeReview n sc c r :: l2 := by
  induction l1 with
  | nil => simp [submitReview, hr]
  | cons x xs ih =>
    have hx := h1 x (List.mem_cons_self x xs)
    simp only [List.cons_append, submitReview, hx, Bool.false_eq_true, if_false,
      List.cons.injEq, true_and]
    exact ih (fun y hy => h1 y (List.mem_cons_of_mem x hy))

/-- Any list with a match decomposes at its first matching element. -/
lemma exists_first_match {α : Type} {p : α → Bool} {l : List α}
    (h : ∃ r ∈ l, p r = true) :
    ∃ l1 r l2, l = l1 ++ r :: l2 ∧ p r = true ∧ ∀ x ∈ l1, p x = false := by
  induction l with
  | nil => simp at h
  | cons y ys ih =>
    by_cases hy : p y = true
    · exact ⟨[], y, ys, rfl, hy, by simp⟩
    · have hys : ∃ r ∈ ys, p r = true := by
        rcases h with ⟨r, hmem, hp⟩
        rcases List.mem_cons.mp hmem with rfl | hmem'
        · exact absurd hp hy
        · exact ⟨r, hmem', hp⟩
      rcases ih hys with ⟨l1, r, l2, heq, hp, hnone⟩
      refine ⟨y :: l1, r, l2, by rw [heq, List.cons_append], hp, ?_⟩
      intro x hx
      rcases List.mem_cons.mp hx with rfl | hx'
      · exact Bool.eq_false_iff.mpr hy
      · exact hnone x hx'

/-- A completed review never matches the findIndex predicate again: its
status is the literal "done", not "pending". -/
lemma pendingMatch_completeReview (sid rid : String) (n : Nat) (sc : Scores)
    (c : String) (r : Review) :
    pendingMatch sid rid (completeReview n sc c r) = false := by
  simp [pendingMatch, completeReview]

/-! ## Claims about submitReview -/

/-- C5: when submitReview finds a review matching (submissionId,
reviewerId, pending), it updates exactly that one record — the first
match — in place, setting scores, comment, status = done and submittedAt,
while the record's id, submissionId, reviewerId and assignedAt, every
other review, and the collection's length are unchanged. -/
theorem claim_C5 (freshId : String) (now : Nat) (sid rid : String) (scores : Scores)
    (comment : String) (prev : List Review)
    (h : ∃ r ∈ prev, pendingMatch sid rid r = true) :
    ∃ l1 r l2,
      prev = l1 ++ r :: l2 ∧
      pendingMatch sid rid r = true ∧
      (∀ x ∈ l1, pendingMatch sid rid x = false) ∧
      submitReview freshId now sid rid scores comment prev
        = l1 ++ completeReview now scores comment r :: l2 ∧
      (submitReview freshId now sid rid scores comment prev).length = prev.length ∧
      (completeReview now scores comment r).id = r.id ∧
      (completeReview now scores comment r).submissionId = r.submissionId ∧
      (completeReview now scores comment r).reviewerId = r.reviewerId ∧
      (completeReview now scores comment r).assignedAt = r.assignedAt ∧
      (completeReview now scores comment r).scores = some scores ∧
      (completeReview now scores comment r).comment = some comment ∧
      (completeReview now scores comment r).status = "done" ∧
      (completeReview now scores comment r).submittedAt = some now := by
  rcases exists_first_match h with ⟨l1, r, l2, heq, hp, hnone⟩
  subst heq
  have hupd := submitReview_update freshId now sid rid scores comment l1 r l2 hnone hp
  refine ⟨l1, r, l2, rfl, hp, hnone, hupd, ?_, rfl, rfl, rfl, rfl, rfl, rfl, rfl, rfl⟩
  rw [hupd]
  simp

/-- C6: when submitReview finds no matching pending review, it appends a
new review with the fresh id, status done, the timestamp, and the supplied
submissionId, reviewerId, scores and comment, growing the collection by
exactly one and leaving every existing review unchanged. -/
theorem claim_C6 (freshId : String) (now : Nat) (sid rid : String) (scores : Scores)
    (comment : String) (prev : List Review)
    (h : ∀ r ∈ prev, pendingMatch sid rid r = false) :
    submitReview freshId now sid rid scores comment prev
      = prev ++ [mkDoneReview freshId now sid rid scores comment] ∧
    (submitReview freshId now sid rid scores comment prev).length = prev.length + 1 ∧
    (mkDoneReview freshId now sid rid scores comment).id = freshId ∧
    (mkDoneReview freshId now sid rid scores comment).submissionId = sid ∧
    (mkDoneReview freshId now sid rid scores comment).reviewerId = rid ∧
    (mkDoneReview freshId now sid rid scores comment).scores = some scores ∧
    (mkDoneReview freshId now sid rid scores comment).comment = some comment ∧
    (mkDoneReview freshId now sid rid scores comment).status = "done" ∧
    (mkDoneReview freshId now sid rid scores comment).submittedAt = some now := by
  have hins := submitReview_insert freshId now sid rid scores comment prev h
  refine ⟨hins, ?_, rfl, rfl, rfl, rfl, rfl, rfl, rfl⟩
  rw [hins]
  simp

/-- C10: when the collection holds more than one pending review for the
same (submissionId, reviewerId) pair, submitReview updates only the first
one in collection order; every later review — the later matching pending
ones included — is untouched and still present, still pending. -/
theorem claim_C10 (freshId : String) (now : Nat) (sid rid : String) (scores : Scores)
    (comment : String) (l1 : List Review) (r : Review) (l2 : List Review)
    (h1 : ∀ x ∈ l1, pendingMatch sid rid x = false)
    (hr : pendingMatch sid rid r = true)
    (_hmore : ∃ r' ∈ l2, pendingMatch sid rid r' = true) :
    submitReview freshId now sid rid scores comment (l1 ++ r :: l2)
      = l1 ++ completeReview now scores comment r :: l2 ∧
    ∀ r' ∈ l2,
      r' ∈ submitReview freshId now sid rid scores comment (l1 ++ r :: l2) ∧
      (pendingMatch sid rid r' = true → r'.status = "pending") := by
  have hupd := submitReview_update freshId now sid rid scores comment l1 r l2 h1 hr
  refine ⟨hupd, ?_⟩
  intro r' hr'
  constructor
  · rw [hupd]
    exact List.mem_append_right l1 (List.mem_cons_of_mem _ hr')
  · intro hp
    simp only [pendingMatch, Bool.and_eq_true, beq_iff_eq] at hp
    exact hp.2

/-- C2: with exactly one pending placeholder for the pair in the store,
the first submitReview call updates it in place (length unchanged) and a
second call for the same pair no longer finds a pending placeholder, falls
into the push branch, and appends a second done row for the pair: the
operation is not idempotent. -/
theorem claim_C2 (prev : List Review) (sid rid f1 f2 : String) (t1 t2 : Nat)
    (sc1 sc2 : Scores) (c1 c2 : String)
    (h : (prev.filter (pendingMatch sid rid)).length = 1) :
    (submitReview f1 t1 sid rid sc1 c1 prev).length = prev.length ∧
    submitReview f2 t2 sid rid sc2 c2 (submitReview f1 t1 sid rid sc1 c1 prev)
      = submitReview f1 t1 sid rid sc1 c1 prev
        ++ [mkDoneReview f2 t2 sid rid sc2 c2] ∧
    (submitReview f2 t2 sid rid sc2 c2 (submitReview f1 t1 sid rid sc1 c1 prev)).length
      = prev.length + 1 := by
  have hex : ∃ r ∈ prev, pendingMatch sid rid r = true := by
    have hpos : 0 < (prev.filter (pendingMatch sid rid)).length := by omega
    rcases List.exists_mem_of_length_pos hpos with ⟨r, hr⟩
    exact ⟨r, (List.mem_filter.mp hr).1, (List.mem_filter.mp hr).2⟩
  rcases exists_first_match hex with ⟨l1, r, l2, heq, hp, hnone⟩
  subst heq
  have hl1 : l1.filter (pendingMatch sid rid) = [] :=
    List.filter_eq_nil_iff.mpr (fun a ha => by simp [hnone a ha])
  have hl2nil : l2.filter (pendingMatch sid rid) = [] := by
    rw [List.filter_append, hl1, List.filter_cons_of_pos hp] at h
    simp only [List.nil_append, List.length_cons] at h
    exact List.length_eq_zero.mp (by omega)
  have hl2 : ∀ x ∈ l2, pendingMatch sid rid x = false := by
    intro x hx
    rcases Bool.eq_false_or_eq_true (pendingMatch sid rid x) with hb | hb
    swap
    · exact hb
    · exfalso
      have hmem : x ∈ l2.filter (pendingMatch sid rid) := List.mem_filter.mpr ⟨hx, hb⟩
      rw [hl2nil] at hmem
      simp at hmem
  have hupd := submitReview_update f1 t1 sid rid sc1 c1 l1 r l2 hnone hp
  have hnoneAfter :
      ∀ x ∈ l1 ++ completeReview t1 sc1 c1 r :: l2, pendingMatch sid rid x = false := by
    intro x hx
    rcases List.mem_append.mp hx with hx1 | hx2
    · exact hnone x hx1
    · rcases List.mem_cons.mp hx2 with rfl | hx3
      · exact pendingMatch_completeReview sid rid t1 sc1 c1 r
      · exact hl2 x hx3
  refine ⟨by rw [hupd]; simp, ?_, ?_⟩
  · rw [hupd]
    exact submitReview_insert f2 t2 sid rid sc2 c2 _ hnoneAfter
  · rw [hupd, submitReview_insert f2 t2 sid rid sc2 c2 _ hnoneAfter]
    simp only [List.length_append, List.length_cons, List.length_nil]

/-! ## Concrete records used by the witnesses -/

/-- A concrete pending placeholder for pair ("sub1", "s2"). -/
def pendEx : Review :=
  { id := "ra0", submissionId := "sub1", reviewerId := "s2", scores := none,
    comment := none, status := "pending", assignedAt := some 7, submittedAt := none }

/-- A second concrete pending placeholder for the same pair. -/
def pendEx2 : Review :=
  { id := "ra1", submissionId := "sub1", reviewerId := "s2", scores := none,
    comment := none, status := "pending", assignedAt := some 9, submittedAt := none }

/-- A concrete review that matches no submitReview call in the witnesses:
it belongs to a different reviewer. -/
def otherEx : Review :=
  { id := "ra2", submissionId := "sub1", reviewerId := "s3", scores := none,
    comment := none, status := "pending", assignedAt := some 7, submittedAt := none }

/-- Witness for C5 at the one-placeholder store `[pendEx]`. -/
theorem claim_C5_witness :
    (∃ r ∈ [pendEx], pendingMatch "sub1" "s2" r = true) ∧
    (∃ l1 r l2,
      ([pendEx] : List Review) = l1 ++ r :: l2 ∧
      pendingMatch "sub1" "s2" r = true ∧
      (∀ x ∈ l1, pendingMatch "sub1" "s2" x = false) ∧
      submitReview "r9" 8 "sub1" "s2" [("c1", 4)] "good" [pendEx]
        = l1 ++ completeReview 8 [("c1", 4)] "good" r :: l2 ∧
      (submitReview "r9" 8 "sub1" "s2" [("c1", 4)] "good" [pendEx]).length
        = ([pendEx] : List Review).length ∧
      (completeReview 8 [("c1", 4)] "good" r).id = r.id ∧
      (completeReview 8 [("c1", 4)] "good" r).submissionId = r.submissionId ∧
      (completeReview 8 [("c1", 4)] "good" r).reviewerId = r.reviewerId ∧
      (completeReview 8 [("c1", 4)] "good" r).assignedAt = r.assignedAt ∧
      (completeReview 8 [("c1", 4)] "good" r).scores = some [("c1", 4)] ∧
      (completeReview 8 [("c1", 4)] "good" r).comment = some "good" ∧
      (completeReview 8 [("c1", 4)] "good" r).status = "done" ∧
      (completeReview 8 [("c1", 4)] "good" r).submittedAt = some 8) :=
  ⟨by decide, claim_C5 "r9" 8 "sub1" "s2" [("c1", 4)] "good" [pendEx] (by decide)⟩

/-- Witness for C6 at a store holding only a non-matching review. -/
theorem claim_C6_witness :
    (∀ r ∈ [otherEx], pendingMatch "sub1" "s2" r = false) ∧
    (submitReview "r9" 8 "sub1" "s2" [("c1", 4)] "good" [otherEx]
      = [otherEx] ++ [mkDoneReview "r9" 8 "sub1" "s2" [("c1", 4)] "good"] ∧
    (submitReview "r9" 8 "sub1" "s2" [("c1", 4)] "good" [otherEx]).length
      = ([otherEx] : List Review).length + 1 ∧
    (mkDoneReview "r9" 8 "sub1" "s2" [("c1", 4)] "good").id = "r9" ∧
    (mkDoneReview "r9" 8 "sub1" "s2" [("c1", 4)] "good").submissionId = "sub1" ∧
    (mkDoneReview "r9" 8 "sub1" "s2" [("c1", 4)] "good").reviewerId = "s2" ∧
    (mkDoneReview "r9" 8 "sub1" "s2" [("c1", 4)] "good").scores = some [("c1", 4)] ∧
    (mkDoneReview "r9" 8 "sub1" "s2" [("c1", 4)] "good").comment = some "good" ∧
    (mkDoneReview "r9" 8 "sub1" "s2" [("c1", 4)] "good").status = "done" ∧
    (mkDoneReview "r9" 8 "sub1" "s2" [("c1", 4)] "good").submittedAt = some 8) :=
  ⟨by decide, claim_C6 "r9" 8 "sub1" "s2" [("c1", 4)] "good" [otherEx] (by decide)⟩

/-- Witness for C10 at a store holding two pending placeholders for the
same pair, behind one non-matching review. -/
theorem claim_C10_witness :
    (∀ x ∈ [otherEx], pendingMatch "sub1" "s2" x = false) ∧
    pendingMatch "sub1" "s2" pendEx = true ∧
    (∃ r' ∈ [pendEx2], pendingMatch "sub1" "s2" r' = true) ∧
    (submitReview "r9" 8 "sub1" "s2" [("c1", 4)] "good" ([otherEx] ++ pendEx :: [pendEx2])
      = [otherEx] ++ completeReview 8 [("c1", 4)] "good" pendEx :: [pendEx2] ∧
    ∀ r' ∈ [pendEx2],
      r' ∈ submitReview "r9" 8 "sub1" "s2" [("c1", 4)] "good" ([otherEx] ++ pendEx :: [pendEx2]) ∧
      (pendingMatch "sub1" "s2" r' = true → r'.status = "pending")) :=
  ⟨by decide, by decide, by decide,
    claim_C10 "r9" 8 "sub1" "s2" [("c1", 4)] "good" [otherEx] pendEx [pendEx2]
      (by decide) (by decide) (by decide)⟩

/-- Witness for C2 at the one-placeholder store `[pendEx]`. -/
theorem claim_C2_witness :
    (([pendEx] : List Review).filter (pendingMatch "sub1" "s2")).length = 1 ∧
    ((submitReview "r8" 8 "sub1" "s2" [("c1", 4)] "good" [pendEx]).length
      = ([pendEx] : List Review).length ∧
    submitReview "r9" 9 "sub1" "s2" [("c1", 1)] "again"
        (submitReview "r8" 8 "sub1" "s2" [("c1", 4)] "good" [pendEx])
      = submitReview "r8" 8 "sub1" "s2" [("c1", 4)] "good" [pendEx]
        ++ [mkDoneReview "r9" 9 "sub1" "s2" [("c1", 1)] "again"] ∧
    (submitReview "r9" 9 "sub1" "s2" [("c1", 1)] "again"
        (submitReview "r8" 8 "sub1" "s2" [("c1", 4)] "good" [pendEx])).length
      = ([pendEx] : List Review).length + 1) :=
  ⟨by decide,
    claim_C2 [pendEx] "sub1" "s2" "r8" "r9" 8 9 [("c1", 4)] [("c1", 1)] "good" "again"
      (by decide)⟩

/-! ## Lemmas about the sampling loop -/

/-- A successful run of the sampling loop stops with exactly
`max chosen.length target` entries: the loop exits as soon as the target
is reached and each iteration adds at most one entry. -/
lemma chooseLoop_length (students : List User) (target : Int) :
    ∀ (picks : List Nat) (chosen res : List String),
      chooseLoop students target picks chosen = some res →
      (res.length : Int) = max (chosen.length : Int) target := by
  intro picks
  induction picks with
  | nil =>
    intro chosen res h
    rw [chooseLoop] at h
    by_cases hlt : (chosen.length : Int) < target
    · rw [if_pos hlt] at h
      exact absurd h (by simp)
    · rw [if_neg hlt] at h
      have : chosen = res := by injection h
      subst this
      omega
  | cons i rest ih =>
    intro chosen res h
    rw [chooseLoop] at h
    by_cases hlt : (chosen.length : Int) < target
    · rw [if_pos hlt] at h
      cases hpick : students[i]? with
      | none => rw [hpick] at h; exact absurd h (by simp)
      | some pick =>
        rw [hpick] at h
        dsimp only at h
        by_cases hmem : pick.id ∈ chosen
        · rw [if_pos hmem] at h
          have := ih chosen res h
          omega
        · rw [if_neg hmem] at h
          have := ih (chosen ++ [pick.id]) res h
          simp only [List.length_append, List.length_cons, List.length_nil] at this
          omega
    · rw [if_neg hlt] at h
      have : chosen = res := by injection h
      subst this
      omega

/-- Every entry of a successful run was in the starting set or is the id
of one of the students the loop sampled from. -/
lemma chooseLoop_subset (students : List User) (target : Int) :
    ∀ (picks : List Nat) (chosen res : List String),
      chooseLoop students target picks chosen = some res →
      ∀ x ∈ res, x ∈ chosen ∨ ∃ u ∈ students, u.id = x := by
  intro picks
  induction picks with
  | nil =>
    intro chosen res h x hx
    rw [chooseLoop] at h
    by_cases hlt : (chosen.length : Int) < target
    · rw [if_pos hlt] at h
      exact absurd h (by simp)
    · rw [if_neg hlt] at h
      have : chosen = res := by injection h
      exact Or.inl (this ▸ hx)
  | cons i rest ih =>
    intro chosen res h x hx
    rw [chooseLoop] at h
    by_cases hlt : (chosen.length : Int) < target
    · rw [if_pos hlt] at h
      cases hpick : students[i]? with
      | none => rw [hpick] at h; exact absurd h (by simp)
      | some pick =>
        rw [hpick] at h
        dsimp only at h
        by_cases hmem : pick.id ∈ chosen
        · rw [if_pos hmem] at h
          exact ih chosen res h x hx
        · rw [if_neg hmem] at h
          rcases ih (chosen ++ [pick.id]) res h x hx with hin | hstud
          · rcases List.mem_append.mp hin with hin1 | hin2
            · exact Or.inl hin1
            · refine Or.inr ⟨pick, List.getElem?_mem hpick, ?_⟩
              have hx1 : x = pick.id := by simpa using hin2
              exact hx1.symm
          · exact Or.inr hstud
    · rw [if_neg hlt] at h
      have : chosen = res := by injection h
      exact Or.inl (this ▸ hx)

/-- The loop never selects the same id twice: it only pushes ids that are
not yet chosen, so a successful run from a duplicate-free set is
duplicate-free. -/
lemma chooseLoop_nodup (students : List User) (target : Int) :
    ∀ (picks : List Nat) (chosen res : List String),
      chooseLoop students target picks chosen = some res →
      chosen.Nodup → res.Nodup := by
  intro picks
  induction picks with
  | nil =>
    intro chosen res h hnd
    rw [chooseLoop] at h
    by_cases hlt : (chosen.length : Int) < target
    · rw [if_pos hlt] at h
      exact absurd h (by simp)
    · rw [if_neg hlt] at h
      have : chosen = res := by injection h
      exact this ▸ hnd
  | cons i rest ih =>
    intro chosen res h hnd
    rw [chooseLoop] at h
    by_cases hlt : (chosen.length : Int) < target
    · rw [if_pos hlt] at h
      cases hpick : students[i]? with
      | none => rw [hpick] at h; exact absurd h (by simp)
      | some pick =>
        rw [hpick] at h
        dsimp only at h
        by_cases hmem : pick.id ∈ chosen
        · rw [if_pos hmem] at h
          exact ih chosen res h hnd
        · rw [if_neg hmem] at h
          refine ih (chosen ++ [pick.id]) res h ?_
          rw [List.nodup_append]
          refine ⟨hnd, List.nodup_singleton pick.id, ?_⟩
          intro x hx hax
          simp only [List.mem_singleton] at hax
          exact hmem (hax ▸ hx)
    · rw [if_neg hlt] at h
      have : chosen = res := by injection h
      exact this ▸ hnd

/-- With a non-positive target the loop exits at once, choosing nobody,
for every random stream. -/
lemma chooseLoop_nonpos (students : List User) (target : Int) (picks : List Nat)
    (h : target ≤ 0) : chooseLoop students target picks [] = some [] := by
  rw [chooseLoop.eq_def]
  dsimp only
  rw [if_neg (by simp only [List.length_nil, Nat.cast_zero]; omega)]

/-- The reviewerIds of the built placeholders are exactly the chosen ids. -/
lemma mkPlaceholders_map_reviewerId (freshIds : Nat → String) (sid : String) (now : Nat) :
    ∀ (i : Nat) (l : List String),
      (mkPlaceholders freshIds sid now i l).map (fun r => r.reviewerId) = l := by
  intro i l
  induction l generalizing i with
  | nil => rfl
  | cons rid rest ih => simp [mkPlaceholders, ih]

/-- One placeholder is built per chosen id. -/
lemma mkPlaceholders_length (freshIds : Nat → String) (sid : String) (now : Nat)
    (i : Nat) (l : List String) :
    (mkPlaceholders freshIds sid now i l).length = l.length := by
  have := mkPlaceholders_map_reviewerId freshIds sid now i l
  calc (mkPlaceholders freshIds sid now i l).length
      = ((mkPlaceholders freshIds sid now i l).map (fun r => r.reviewerId)).length :=
        (List.length_map _ _).symm
    _ = l.length := by rw [this]

/-- Shape of every built placeholder: pending, null scores and comment,
the submission's id, a reviewerId from the chosen list, the timestamp. -/
lemma mkPlaceholders_mem (freshIds : Nat → String) (sid : String) (now : Nat) :
    ∀ (i : Nat) (l : List String) (r : Review),
      r ∈ mkPlaceholders freshIds sid now i l →
      r.status = "pending" ∧ r.submissionId = sid ∧ r.reviewerId ∈ l ∧
        r.scores = none ∧ r.comment = none ∧ r.assignedAt = some now := by
  intro i l
  induction l generalizing i with
  | nil => intro r hr; simp [mkPlaceholders] at hr
  | cons rid rest ih =>
    intro r hr
    rw [mkPlaceholders] at hr
    rcases List.mem_cons.mp hr with rfl | hr'
    · exact ⟨rfl, rfl, List.mem_cons_self rid rest, rfl, rfl, rfl⟩
    · rcases ih (i + 1) r hr' with ⟨h1, h2, h3, h4, h5, h6⟩
      exact ⟨h1, h2, List.mem_cons_of_mem rid h3, h4, h5, h6⟩

/-- Members of the eligible pool are students other than the author. -/
lemma eligiblePool_mem (users : List User) (s : Submission) (u : User)
    (hu : u ∈ eligiblePool users s) :
    u ∈ users ∧ u.role = "student" ∧ u.id ≠ s.authorId := by
  have h := List.mem_filter.mp hu
  refine ⟨h.1, ?_, ?_⟩
  · have := h.2
    simp only [Bool.and_eq_true, beq_iff_eq, bne_iff_ne] at this
    exact this.1
  · have := h.2
    simp only [Bool.and_eq_true, beq_iff_eq, bne_iff_ne] at this
    exact this.2

/-- Shape of every review a successful assignment run produces: a pending
placeholder for the new submission whose reviewer is an eligible student,
in particular never the author. -/
lemma assignReviewers_mem (users : List User) (assignments : List Assignment)
    (s : Submission) (now : Nat) (freshIds : Nat → String) (picks : List Nat)
    (revs : List Review)
    (hrun : assignReviewers users assignments s now freshIds picks = some revs) :
    ∀ r ∈ revs, r.status = "pending" ∧ r.submissionId = s.id ∧
      r.reviewerId ≠ s.authorId ∧ r.scores = none := by
  unfold assignReviewers at hrun
  cases hloop : chooseLoop (eligiblePool users s)
      (min (reviewersNeeded assignments s)
        ((eligiblePool users s).length : Int)) picks [] with
  | none => rw [hloop] at hrun; exact absurd hrun (by simp)
  | some chosen =>
    rw [hloop] at hrun
    have hrevs : mkPlaceholders freshIds s.id now 0 chosen = revs := by injection hrun
    intro r hr
    rw [← hrevs] at hr
    rcases mkPlaceholders_mem freshIds s.id now 0 chosen r hr with ⟨h1, h2, h3, h4, _, _⟩
    refine ⟨h1, h2, ?_, h4⟩
    rcases chooseLoop_subset (eligiblePool users s) _ picks [] chosen hloop _ h3 with hc | hc
    · simp at hc
    · rcases hc with ⟨u, hu, huid⟩
      have := (eligiblePool_mem users s u hu).2.2
      rw [← huid]
      exact this

/-! ## Claims about the assignment engine -/

/-- C1: with the submission's assignment present and its
reviewersPerSubmission set to a positive v (the data model declares it a
positive integer), a terminating run of the assignment step creates
exactly min(v, |eligible pool|) placeholders, all pending; and with an
empty eligible pool the step succeeds with zero placeholders for every
random stream — no error. -/
theorem claim_C1 (users : List User) (assignments : List Assignment) (s : Submission)
    (now : Nat) (freshIds : Nat → String) (picks : List Nat) (v : Int) (revs : List Review)
    (hv : (assignments.find? (fun a => a.id == s.assignmentId)).bind
            (fun a => a.reviewersPerSubmission) = some v)
    (hpos : 0 < v)
    (hrun : assignReviewers users assignments s now freshIds picks = some revs) :
    (revs.length : Int) = min v ((eligiblePool users s).length : Int) ∧
    (∀ r ∈ revs, r.status = "pending") ∧
    (eligiblePool users s = [] →
      assignReviewers users assignments s now freshIds picks = some []) := by
  have hrn : reviewersNeeded assignments s = v := by
    unfold reviewersNeeded
    rw [hv]
    simp only [jsOr]
    rw [if_neg (by omega)]
  refine ⟨?_, ?_, ?_⟩
  · unfold assignReviewers at hrun
    rw [hrn] at hrun
    cases hloop : chooseLoop (eligiblePool users s)
        (min v ((eligiblePool users s).length : Int)) picks [] with
    | none => rw [hloop] at hrun; exact absurd hrun (by simp)
    | some chosen =>
      rw [hloop] at hrun
      have hrevs : mkPlaceholders freshIds s.id now 0 chosen = revs := by injection hrun
      have hlen := chooseLoop_length (eligiblePool users s) _ picks [] chosen hloop
      rw [← hrevs, mkPlaceholders_length]
      simp only [List.length_nil, Nat.cast_zero] at hlen
      rw [hlen]
      omega
  · intro r hr
    exact (assignReviewers_mem users assignments s now freshIds picks revs hrun r hr).1
  · intro hpool
    unfold assignReviewers
    rw [hrn, hpool, chooseLoop_nonpos _ _ _
      (by simp only [List.length_nil, Nat.cast_zero]; omega)]
    rfl

/-- C4: the reviewerIds of the placeholders created by one terminating
run of the assignment step are pairwise distinct — selection is without
replacement, deduplicated by user id. -/
theorem claim_C4 (users : List User) (assignments : List Assignment) (s : Submission)
    (now : Nat) (freshIds : Nat → String) (picks : List Nat) (revs : List Review)
    (hrun : assignReviewers users assignments s now freshIds picks = some revs) :
    (revs.map (fun r => r.reviewerId)).Nodup := by
  unfold assignReviewers at hrun
  cases hloop : chooseLoop (eligiblePool users s)
      (min (reviewersNeeded assignments s) ((eligiblePool users s).length : Int))
      picks [] with
  | none => rw [hloop] at hrun; exact absurd hrun (by simp)
  | some chosen =>
    rw [hloop] at hrun
    have hrevs : mkPlaceholders freshIds s.id now 0 chosen = revs := by injection hrun
    rw [← hrevs, mkPlaceholders_map_reviewerId]
    exact chooseLoop_nodup (eligiblePool users s) _ picks [] chosen hloop List.nodup_nil

/-! ## Concrete runs of the assignment engine for the witnesses -/

/-- A concrete submission by student s1 for assignment a1. -/
def subEx : Submission :=
  { id := "sub1", assignmentId := "a1", authorId := "s1", content := "w",
    version := 1, createdAt := 0 }

/-- A concrete assignment with the form's reviewersPerSubmission of 2. -/
def asgnEx : Assignment :=
  { id := "a1", title := "T", desc := "", rubric := [⟨"c1", "Quality", 5⟩,
    ⟨"c2", "Completeness", 5⟩], createdAt := 0, reviewersPerSubmission := some 2 }

/-- A concrete fresh-id generator for placeholder ids. -/
def fidEx : Nat → String := fun i => "ra" ++ toString i

/-- The placeholders of a concrete terminating run (picks 0 then 1 over
the pool [s2, s3]). -/
def revsEx : List Review := (assignReviewers seedUsers [asgnEx] subEx 7 fidEx [0, 1]).getD []

/-- The placeholders of a concrete run whose stream repeats an index, so
the loop rejects a duplicate once (picks 0, 0, 1). -/
def revsEx2 : List Review :=
  (assignReviewers seedUsers [asgnEx] subEx 7 fidEx [0, 0, 1]).getD []

/-- Witness for C1 at the seeded users: pool [s2, s3], v = 2, run creates
min(2, 2) = 2 pending placeholders. -/
theorem claim_C1_witness :
    ((([asgnEx] : List Assignment).find? (fun a => a.id == subEx.assignmentId)).bind
        (fun a => a.reviewersPerSubmission) = some 2) ∧
    (0 : Int) < 2 ∧
    (assignReviewers seedUsers [asgnEx] subEx 7 fidEx [0, 1] = some revsEx) ∧
    ((revsEx.length : Int) = min 2 ((eligiblePool seedUsers subEx).length : Int) ∧
      (∀ r ∈ revsEx, r.status = "pending") ∧
      (eligiblePool seedUsers subEx = [] →
        assignReviewers seedUsers [asgnEx] subEx 7 fidEx [0, 1] = some [])) :=
  ⟨by decide, by decide, by decide,
    claim_C1 seedUsers [asgnEx] subEx 7 fidEx [0, 1] 2 revsEx
      (by decide) (by decide) (by decide)⟩

/-- Witness for C4 at a run whose random stream repeats an index. -/
theorem claim_C4_witness :
    (assignReviewers seedUsers [asgnEx] subEx 7 fidEx [0, 0, 1] = some revsEx2) ∧
    (revsEx2.map (fun r => r.reviewerId)).Nodup :=
  ⟨by decide,
    claim_C4 seedUsers [asgnEx] subEx 7 fidEx [0, 0, 1] revsEx2 (by decide)⟩

/-! ## C7: the `|| 2` default versus non-positive values -/

/-- A concrete assignment whose reviewersPerSubmission is -1. -/
def asgnNegEx : Assignment :=
  { id := "a1", title := "T", desc := "", rubric := [], createdAt := 0,
    reviewersPerSubmission := some (-1) }

/-- A concrete assignment whose reviewersPerSubmission is unset. -/
def asgnUnsetEx : Assignment :=
  { id := "a1", title := "T", desc := "", rubric := [], createdAt := 0,
    reviewersPerSubmission := none }

/-- A concrete assignment whose reviewersPerSubmission is 0. -/
def asgnZeroEx : Assignment :=
  { id := "a1", title := "T", desc := "", rubric := [], createdAt := 0,
    reviewersPerSubmission := some 0 }

/-- C7 counterexample: reviewersPerSubmission = -1 is non-positive and the
eligible pool holds the two students s2 and s3, so behaving as if the
value were 2 would target min(2, 2) = 2 reviewers; the engine instead
creates zero placeholders, because the JS `|| 2` default fires only on
falsy values and -1 is truthy, leaving the loop bound negative. -/
theorem claim_C7_counterexample :
    (assignReviewers seedUsers [asgnNegEx] subEx 7 fidEx [0, 1]).map List.length
      = some 0 ∧
    min (2 : Int) ((eligiblePool seedUsers subEx).length : Int) = 2 := by
  constructor
  · rfl
  · decide

/-- C7 amended: the default of 2 applies when reviewersPerSubmission is
unset or zero (the JS falsy values); a negative value is not defaulted —
it makes the sampling target negative, and the engine then succeeds with
zero placeholders for every random stream. -/
theorem claim_C7_amended (users : List User) (assignments : List Assignment)
    (s : Submission) (now : Nat) (freshIds : Nat → String) (picks : List Nat) :
    (∀ v : Int, v < 0 →
      (assignments.find? (fun a => a.id == s.assignmentId)).bind
          (fun a => a.reviewersPerSubmission) = some v →
      assignReviewers users assignments s now freshIds picks = some []) ∧
    ((assignments.find? (fun a => a.id == s.assignmentId)).bind
        (fun a => a.reviewersPerSubmission) = none →
      reviewersNeeded assignments s = 2) ∧
    ((assignments.find? (fun a => a.id == s.assignmentId)).bind
        (fun a => a.reviewersPerSubmission) = some 0 →
      reviewersNeeded assignments s = 2) := by
  refine ⟨?_, ?_, ?_⟩
  · intro v hv hfound
    have hrn : reviewersNeeded assignments s = v := by
      unfold reviewersNeeded
      rw [hfound]
      simp only [jsOr]
      rw [if_neg (by omega)]
    unfold assignReviewers
    rw [hrn, chooseLoop_nonpos _ _ _ (by omega)]
    rfl
  · intro hfound
    unfold reviewersNeeded
    rw [hfound]
    rfl
  · intro hfound
    unfold reviewersNeeded
    rw [hfound]
    simp [jsOr]

/-- Witness for the amended C7 at the three concrete assignments. -/
theorem claim_C7_amended_witness :
    ((-1 : Int) < 0) ∧
    ((([asgnNegEx] : List Assignment).find? (fun a => a.id == subEx.assignmentId)).bind
        (fun a => a.reviewersPerSubmission) = some (-1)) ∧
    assignReviewers seedUsers [asgnNegEx] subEx 7 fidEx [0, 1] = some [] ∧
    ((([asgnUnsetEx] : List Assignment).find? (fun a => a.id == subEx.assignmentId)).bind
        (fun a => a.reviewersPerSubmission) = none) ∧
    reviewersNeeded [asgnUnsetEx] subEx = 2 ∧
    ((([asgnZeroEx] : List Assignment).find? (fun a => a.id == subEx.assignmentId)).bind
        (fun a => a.reviewersPerSubmission) = some 0) ∧
    reviewersNeeded [asgnZeroEx] subEx = 2 :=
  ⟨by decide, by decide,
    (claim_C7_amended seedUsers [asgnNegEx] subEx 7 fidEx [0, 1]).1 (-1)
      (by decide) (by decide),
    by decide,
    (claim_C7_amended seedUsers [asgnUnsetEx] subEx 7 fidEx []).2.1 (by decide),
    by decide,
    (claim_C7_amended seedUsers [asgnZeroEx] subEx 7 fidEx []).2.2 (by decide)⟩

/-! ## C9: LS.get -/

/-- C9: LS.get — a total function, so no outcome can be a thrown error —
returns the fallback when the key is absent (getItem null parses to JSON
null and `?? fallback` fires), when the stored text fails to parse (the
catch returns the fallback), and when the parsed value is JSON null;
otherwise it returns the parsed stored value. -/
theorem claim_C9 (parse : String → Option Json) (fallback : Json) :
    LS.get none parse fallback = fallback ∧
    (∀ s, parse s = none → LS.get (some s) parse fallback = fallback) ∧
    (∀ s, parse s = some Json.null → LS.get (some s) parse fallback = fallback) ∧
    (∀ s v, parse s = some v → v ≠ Json.null → LS.get (some s) parse fallback = v) := by
  refine ⟨rfl, ?_, ?_, ?_⟩
  · intro s hs
    simp [LS.get, hs]
  · intro s hs
    simp [LS.get, hs]
  · intro s v hs hv
    cases v with
    | null => exact absurd rfl hv
    | bool b => simp [LS.get, hs]
    | num n => simp [LS.get, hs]
    | str t => simp [LS.get, hs]
    | arr l => simp [LS.get, hs]
    | obj o => simp [LS.get, hs]

/-- A concrete parse function for the C9 witness: "bad" fails to parse,
"null" parses to JSON null, anything else parses to the number 3. -/
def parseEx : String → Option Json := fun s =>
  if s = "bad" then none
  else if s = "null" then some Json.null
  else some (Json.num 3)

/-- Witness for C9 at the concrete parse function: all four outcomes. -/
theorem claim_C9_witness :
    LS.get none parseEx (Json.num 99) = Json.num 99 ∧
    (parseEx "bad" = none ∧ LS.get (some "bad") parseEx (Json.num 99) = Json.num 99) ∧
    (parseEx "null" = some Json.null ∧
      LS.get (some "null") parseEx (Json.num 99) = Json.num 99) ∧
    (parseEx "x" = some (Json.num 3) ∧ Json.num 3 ≠ Json.null ∧
      LS.get (some "x") parseEx (Json.num 99) = Json.num 3) :=
  ⟨(claim_C9 parseEx (Json.num 99)).1,
   ⟨by simp [parseEx], (claim_C9 parseEx (Json.num 99)).2.1 "bad" (by simp [parseEx])⟩,
   ⟨by simp [parseEx], (claim_C9 parseEx (Json.num 99)).2.2.1 "null" (by simp [parseEx])⟩,
   ⟨by simp [parseEx], fun h => Json.noConfusion h,
    (claim_C9 parseEx (Json.num 99)).2.2.2 "x" (Json.num 3) (by simp [parseEx])
      (fun h => Json.noConfusion h)⟩⟩

/-! ## Shape of submitReview's output -/

/-- Every review in submitReview's output is an untouched input review,
the completed form of an input review that matched the findIndex
predicate, or the freshly pushed done record. -/
lemma submitReview_mem (f : String) (n : Nat) (sid rid : String) (sc : Scores)
    (c : String) (l : List Review) (r' : Review)
    (h : r' ∈ submitReview f n sid rid sc c l) :
    r' ∈ l ∨
    (∃ r0 ∈ l, pendingMatch sid rid r0 = true ∧ r' = completeReview n sc c r0) ∨
    r' = mkDoneReview f n sid rid sc c := by
  induction l with
  | nil =>
    rw [submitReview] at h
    simp only [List.mem_singleton] at h
    exact Or.inr (Or.inr h)
  | cons x xs ih =>
    rw [submitReview] at h
    by_cases hx : pendingMatch sid rid x = true
    · rw [if_pos hx] at h
      rcases List.mem_cons.mp h with rfl | h2
      · exact Or.inr (Or.inl ⟨x, List.mem_cons_self x xs, hx, rfl⟩)
      · exact Or.inl (List.mem_cons_of_mem x h2)
    · rw [if_neg hx] at h
      rcases List.mem_cons.mp h with he | h2
      · exact Or.inl (by rw [he]; exact List.mem_cons_self x xs)
      · rcases ih h2 with h3 | h3 | h3
        · exact Or.inl (List.mem_cons_of_mem x h3)
        · rcases h3 with ⟨r0, hr0, hm, he⟩
          exact Or.inr (Or.inl ⟨r0, List.mem_cons_of_mem x hr0, hm, he⟩)
        · exact Or.inr (Or.inr h3)

/-! ## Coverage of the form's score map -/

/-- A JS object update never removes a key. -/
lemma setScore_keys_superset (s : Scores) (cid : String) (v : Int) (key : String)
    (h : key ∈ s.map Prod.fst) : key ∈ (setScore s cid v).map Prod.fst := by
  unfold setScore
  by_cases hany : s.any (fun p => p.1 == cid) = true
  · rw [if_pos hany]
    rcases List.mem_map.mp h with ⟨p, hp, hfst⟩
    apply List.mem_map.mpr
    refine ⟨if p.1 == cid then (p.1, v) else p, List.mem_map_of_mem _ hp, ?_⟩
    by_cases hc : (p.1 == cid) = true
    · rw [if_pos hc]; exact hfst
    · rw [if_neg hc]; exact hfst
  · rw [if_neg hany]
    rw [List.map_append]
    exact List.mem_append_left _ h

/-- A JS object update makes its own key present. -/
lemma setScore_key_self (s : Scores) (cid : String) (v : Int) :
    cid ∈ (setScore s cid v).map Prod.fst := by
  unfold setScore
  by_cases hany : s.any (fun p => p.1 == cid) = true
  · rw [if_pos hany]
    rcases List.any_eq_true.mp hany with ⟨p, hp, hpc⟩
    apply List.mem_map.mpr
    refine ⟨if p.1 == cid then (p.1, v) else p, List.mem_map_of_mem _ hp, ?_⟩
    rw [if_pos hpc]
    exact beq_iff_eq.mp hpc
  · rw [if_neg hany]
    rw [List.map_append]
    exact List.mem_append_right _ (by simp)

/-- Folding any sequence of setScore updates never removes a key. -/
lemma foldl_setScore_keeps {β : Type} (f : β → String) (g : β → Int) (l : List β) :
    ∀ (s : Scores) (key : String), key ∈ s.map Prod.fst →
      key ∈ (l.foldl (fun s b => setScore s (f b) (g b)) s).map Prod.fst := by
  induction l with
  | nil => intro s key h; exact h
  | cons b rest ih =>
    intro s key h
    rw [List.foldl_cons]
    exact ih _ key (setScore_keys_superset s (f b) (g b) key h)

/-- The form's initial score map has an entry for every rubric criterion:
`assignment.rubric.forEach(c => s[c.id] = 0)`. -/
lemma initScores_covers (rubric : List Criterion) :
    ∀ c ∈ rubric, c.id ∈ (initScores rubric).map Prod.fst := by
  unfold initScores
  suffices h : ∀ (s : Scores), ∀ c ∈ rubric,
      c.id ∈ (rubric.foldl (fun s c => setScore s c.id 0) s).map Prod.fst from h []
  induction rubric with
  | nil => intro s c hc; simp at hc
  | cons d rest ih =>
    intro s c hc
    rw [List.foldl_cons]
    rcases List.mem_cons.mp hc with rfl | hc'
    · exact foldl_setScore_keeps (fun c => c.id) (fun _ => 0) rest _ c.id
        (setScore_key_self s c.id 0)
    · exact ih _ c hc'

/-- The score map the form submits covers every rubric criterion, whatever
edits the reviewer made: edits only overwrite or add keys. -/
lemma formScores_covers (rubric : List Criterion) (edits : List (String × Int)) :
    ∀ c ∈ rubric, c.id ∈ (formScores rubric edits).map Prod.fst := by
  intro c hc
  unfold formScores
  exact foldl_setScore_keeps Prod.fst Prod.snd edits (initScores rubric) c.id
    (initScores_covers rubric c hc)

/-! ## Reachable-state invariants -/

/-- No review names its submission's author as its reviewer. -/
def NoSelfReview (st : AppState) : Prop :=
  ∀ r ∈ st.reviews, ∀ sub ∈ st.submissions,
    sub.id = r.submissionId → r.reviewerId ≠ sub.authorId

/-- Every done review carries a score entry for each criterion of the
rubric of its submission's assignment. -/
def DoneScoresComplete (st : AppState) : Prop :=
  ∀ r ∈ st.reviews, r.status = "done" →
    ∀ sub ∈ st.submissions, sub.id = r.submissionId →
      ∀ a ∈ st.assignments, a.id = sub.assignmentId →
        ∃ sc, r.scores = some sc ∧ ∀ c ∈ a.rubric, c.id ∈ sc.map Prod.fst

/-- Well-formedness of a state: distinct assignment ids, distinct
submission ids, submissions reference existing assignments, and the two
review invariants above. -/
def Wf (st : AppState) : Prop :=
  (st.assignments.map (fun a => a.id)).Nodup ∧
  (st.submissions.map (fun s => s.id)).Nodup ∧
  (∀ sub ∈ st.submissions, ∃ a ∈ st.assignments, a.id = sub.assignmentId) ∧
  NoSelfReview st ∧
  DoneScoresComplete st

/-- The seeded initial state is well-formed: all collections are empty. -/
lemma wf_init : Wf initState := by
  refine ⟨by simp [initState], by simp [initState], ?_, ?_, ?_⟩
  · intro sub hsub
    simp [initState] at hsub
  · intro r hr
    simp [initState] at hr
  · intro r hr
    simp [initState] at hr

/-- Every application operation preserves well-formedness. -/
lemma step_wf {st st' : AppState} (hwf : Wf st) (hstep : Step st st') : Wf st' := by
  obtain ⟨hA, hS, hR, hNS, hDS⟩ := hwf
  cases hstep with
  | createAssignment a hfresh hrps =>
    refine ⟨?_, hS, ?_, ?_, ?_⟩
    · simp only [List.map_append, List.map_cons, List.map_nil]
      rw [List.nodup_append]
      refine ⟨hA, List.nodup_singleton _, ?_⟩
      intro x hx hax
      simp only [List.mem_singleton] at hax
      rcases List.mem_map.mp hx with ⟨a', ha', hid⟩
      exact hfresh a' ha' (hid.symm ▸ hax)
    · intro sub hsub
      rcases hR sub hsub with ⟨a0, ha0, heq⟩
      exact ⟨a0, List.mem_append_left _ ha0, heq⟩
    · intro r hr sub hsub heq
      exact hNS r hr sub hsub heq
    · intro r hr hdone sub hsub hseq a' ha' haeq
      rcases List.mem_append.mp ha' with h1 | h2
      · exact hDS r hr hdone sub hsub hseq a' h1 haeq
      · simp only [List.mem_singleton] at h2
        subst h2
        rcases hR sub hsub with ⟨a0, ha0, heq0⟩
        exact absurd (heq0.trans haeq.symm) (hfresh a0 ha0)
  | createSubmission s now freshIds picks placeholders hexists hfreshSub hfreshRev hrun =>
    have hmem := assignReviewers_mem st.users st.assignments s now freshIds picks
      placeholders hrun
    refine ⟨hA, ?_, ?_, ?_, ?_⟩
    · simp only [List.map_append, List.map_cons, List.map_nil]
      rw [List.nodup_append]
      refine ⟨hS, List.nodup_singleton _, ?_⟩
      intro x hx hax
      simp only [List.mem_singleton] at hax
      rcases List.mem_map.mp hx with ⟨s', hs', hid⟩
      exact hfreshSub s' hs' (hid.symm ▸ hax)
    · intro sub hsub
      rcases List.mem_append.mp hsub with h1 | h2
      · exact hR sub h1
      · simp only [List.mem_singleton] at h2
        subst h2
        exact hexists
    · intro r hr sub hsub heq
      rcases List.mem_append.mp hr with hrold | hrnew
      · rcases List.mem_append.mp hsub with hsold | hsnew
        · exact hNS r hrold sub hsold heq
        · simp only [List.mem_singleton] at hsnew
          subst hsnew
          exact absurd heq.symm (hfreshRev r hrold)
      · rcases List.mem_append.mp hsub with hsold | hsnew
        · exact absurd (heq.trans (hmem r hrnew).2.1) (hfreshSub sub hsold)
        · simp only [List.mem_singleton] at hsnew
          subst hsnew
          exact (hmem r hrnew).2.2.1
    · intro r hr hdone sub hsub hseq a' ha' haeq
      rcases List.mem_append.mp hr with hrold | hrnew
      · rcases List.mem_append.mp hsub with hsold | hsnew
        · exact hDS r hrold hdone sub hsold hseq a' ha' haeq
        · simp only [List.mem_singleton] at hsnew
          subst hsnew
          exact absurd hseq.symm (hfreshRev r hrold)
      · have hst := (hmem r hrnew).1
        rw [hdone] at hst
        exact absurd hst (by decide)
  | submitReview r hr hpend sub hsub a ha edits comment freshId now =>
    have hsubmem := List.mem_of_find?_eq_some hsub
    have hsubid : sub.id = r.submissionId := by
      have := List.find?_some hsub
      simpa [beq_iff_eq] using this
    have hamem := List.mem_of_find?_eq_some ha
    have haid : a.id = sub.assignmentId := by
      have := List.find?_some ha
      simpa [beq_iff_eq] using this
    refine ⟨hA, hS, hR, ?_, ?_⟩
    · intro r' hr' sub' hsub' heq
      rcases submitReview_mem _ _ _ _ _ _ _ _
          hr' with hold | ⟨r0, hr0, hm, he⟩ | he
      · exact hNS r' hold sub' hsub' heq
      · subst he
        exact hNS r0 hr0 sub' hsub' heq
      · subst he
        exact hNS r hr sub' hsub' heq
    · intro r' hr' hdone sub' hsub' hseq a' ha' haeq
      rcases submitReview_mem _ _ _ _ _ _ _ _
          hr' with hold | ⟨r0, hr0, hm, he⟩ | he
      · exact hDS r' hold hdone sub' hsub' hseq a' ha' haeq
      · subst he
        have hm' : r0.submissionId = r.submissionId := by
          simp only [pendingMatch, Bool.and_eq_true, beq_iff_eq] at hm
          exact hm.1.1
        have hsid : sub'.id = sub.id := hseq.trans (hm'.trans hsubid.symm)
        have hsub'eq : sub' = sub := List.inj_on_of_nodup_map hS hsub' hsubmem hsid
        subst hsub'eq
        have ha'eq : a' = a := List.inj_on_of_nodup_map hA ha' hamem
          (haeq.trans haid.symm)
        rw [ha'eq]
        exact ⟨formScores a.rubric edits, rfl,
          fun c hc => formScores_covers a.rubric edits c hc⟩
      · subst he
        have hsid : sub'.id = sub.id := hseq.trans hsubid.symm
        have hsub'eq : sub' = sub := List.inj_on_of_nodup_map hS hsub' hsubmem hsid
        subst hsub'eq
        have ha'eq : a' = a := List.inj_on_of_nodup_map hA ha' hamem
          (haeq.trans haid.symm)
        rw [ha'eq]
        exact ⟨formScores a.rubric edits, rfl,
          fun c hc => formScores_covers a.rubric edits c hc⟩

/-- Every reachable state is well-formed. -/
lemma reachable_wf {st : AppState} (h : Reachable st) : Wf st := by
  induction h with
  | init => exact wf_init
  | step _ hstep ih => exact step_wf ih hstep

/-- C3: in every state reachable through the application's operations, no
review's reviewerId equals the authorId of the submission it refers to —
the assignment engine's eligible pool excludes the author, and
reconciliation only reuses (submissionId, reviewerId) pairs of existing
reviews. -/
theorem claim_C3 (st : AppState) (h : Reachable st) :
    ∀ r ∈ st.reviews, ∀ sub ∈ st.submissions,
      sub.id = r.submissionId → r.reviewerId ≠ sub.authorId :=
  (reachable_wf h).2.2.2.1

/-- C8: in every state reachable through the application's operations,
every review with status done carries a scores mapping with an entry for
each criterion of the corresponding assignment's rubric — the review form
initializes a score for every criterion and edits never remove keys. -/
theorem claim_C8 (st : AppState) (h : Reachable st) :
    ∀ r ∈ st.reviews, r.status = "done" →
      ∀ sub ∈ st.submissions, sub.id = r.submissionId →
        ∀ a ∈ st.assignments, a.id = sub.assignmentId →
          ∃ sc, r.scores = some sc ∧ ∀ c ∈ a.rubric, c.id ∈ sc.map Prod.fst :=
  (reachable_wf h).2.2.2.2

/-! ## A concrete reachable state for the invariant witnesses

initState, then the teacher creates asgnEx, then student s1 submits subEx
(placeholders revsEx for s2 and s3 appear), then s2 submits their review. -/

def st1 : AppState := { initState with assignments := initState.assignments ++ [asgnEx] }

def st2 : AppState :=
  { st1 with submissions := st1.submissions ++ [subEx], reviews := st1.reviews ++ revsEx }

/-- The first placeholder of the concrete run: reviewer s2, pending. -/
def rEx : Review :=
  { id := "ra0", submissionId := "sub1", reviewerId := "s2", scores := none,
    comment := none, status := "pending", assignedAt := some 7, submittedAt := none }

def st3 : AppState :=
  { st2 with reviews := (submitReview "r1" 8 rEx.submissionId rEx.reviewerId
      (formScores asgnEx.rubric [("c1", 4)]) "nice" st2.reviews) }

/-- The completed review of reviewer s2 as it sits in the three-step
state: scores c1 = 4 (edited) and c2 = 0 (the form's initial value). -/
def rDoneEx : Review :=
  { id := "ra0", submissionId := "sub1", reviewerId := "s2",
    scores := some [("c1", 4), ("c2", 0)], comment := some "nice",
    status := "done", assignedAt := some 7, submittedAt := some 8 }

/-- Witness for C3 at the concrete three-step state, instantiated at the
completed review of s2 and the submission of s1. -/
theorem claim_C3_witness :
    rDoneEx ∈ st3.reviews ∧ subEx ∈ st3.submissions ∧
    subEx.id = rDoneEx.submissionId ∧ rDoneEx.reviewerId ≠ subEx.authorId :=
  ⟨by decide, by decide, by decide,
    claim_C3 st3 (Reachable.step (Reachable.step (Reachable.step Reachable.init
      (Step.createAssignment initState asgnEx (by decide) rfl))
      (Step.createSubmission st1 subEx 7 fidEx [0, 1] revsEx (by decide) (by decide)
        (by decide) (by decide)))
      (Step.submitReview st2 rEx (by decide) rfl subEx (by decide) asgnEx (by decide)
        [("c1", 4)] "nice" "r1" 8))
      rDoneEx (by decide) subEx (by decide) (by decide)⟩

/-- Witness for C8 at the concrete three-step state, instantiated at the
completed review of s2, the submission of s1 and its assignment. -/
theorem claim_C8_witness :
    rDoneEx ∈ st3.reviews ∧ rDoneEx.status = "done" ∧ subEx ∈ st3.submissions ∧
    subEx.id = rDoneEx.submissionId ∧ asgnEx ∈ st3.assignments ∧
    asgnEx.id = subEx.assignmentId ∧
    (∃ sc, rDoneEx.scores = some sc ∧
      ∀ c ∈ asgnEx.rubric, c.id ∈ sc.map Prod.fst) :=
  ⟨by decide, rfl, by decide, by decide, by decide, by decide,
    claim_C8 st3 (Reachable.step (Reachable.step (Reachable.step Reachable.init
      (Step.createAssignment initState asgnEx (by decide) rfl))
      (Step.createSubmission st1 subEx 7 fidEx [0, 1] revsEx (by decide) (by decide)
        (by decide) (by decide)))
      (Step.submitReview st2 rEx (by decide) rfl subEx (by decide) asgnEx (by decide)
        [("c1", 4)] "nice" "r1" 8))
      rDoneEx (by decide) rfl subEx (by decide) (by decide) asgnEx (by decide)
      (by decide)⟩

end PeerReview
